import Mathlib

/-!
Verification of the `GraphBuilder` component of the nexus repository
(`src/graph/graph_builder.py`).

The Python code is shallowly embedded as executable Lean definitions:

* Python floats are idealized as rationals (`ℚ`).
* A spaCy sentence is modelled by the data `build_graph_from_sentences`
  actually consumes from it: the set of unique entity names that
  `EntityExtractor.get_unique_entities` returns for it (a Python `set`,
  modelled as a duplicate-free list obtained with `dedup`), together with
  the outcome of `SentimentAnalyzer.analyze` on the sentence text
  (`Except.error` models a raised exception; the analyzer itself is an
  external ML model, so its per-sentence outcome is attached to the
  sentence).
* `collections.Counter` and `defaultdict(list)` are modelled as total
  functions with the corresponding defaults; for the `defaultdict` an
  `Option (List ℚ)` records whether the key is present (`in` checks in
  the Python code distinguish absent keys from present ones).
* The `networkx` graph is modelled by its node list (with the
  `full_connections` attribute) and edge list (with the `weight` and the
  optional `sentiment` / `sentiment_count` attributes), in insertion
  order.
-/

/-- Result record produced by `SentimentAnalyzer.analyze`: the fields
`label` and `confidence` consumed by `GraphBuilder._convert_sentiment_to_score`. -/
structure SentimentResult where
  label : String
  confidence : ℚ
deriving DecidableEq

/-- ASCII lowering of a string, modelling `str.lower()` on the (ASCII)
classifier labels. -/
def lowerStr (s : String) : String :=
  String.mk (s.data.map Char.toLower)

/-- Boolean test that `needle` is a prefix of `hay` (helper for the
substring test). -/
def hasPre : List Char → List Char → Bool
  | _, [] => true
  | [], _ :: _ => false
  | c :: cs, d :: ds => c == d && hasPre cs ds

/-- Boolean substring test, modelling Python's `needle in hay` on strings. -/
def hasSub : List Char → List Char → Bool
  | [], needle => hasPre [] needle
  | c :: cs, needle => hasPre (c :: cs) needle || hasSub cs needle

/-- The `positive_labels` list of `_convert_sentiment_to_score`. -/
def positive_labels : List String :=
  ["positive", "joy", "love", "optimism", "admiration", "approval", "caring"]

/-- The `negative_labels` list of `_convert_sentiment_to_score`. -/
def negative_labels : List String :=
  ["negative", "anger", "sadness", "fear", "disgust", "disapproval", "annoyance"]

/-- The `neutral_labels` list of `_convert_sentiment_to_score` (bound in the
source but never read by it). -/
def neutral_labels : List String :=
  ["neutral", "surprise", "curiosity", "confusion", "realization"]

/-- `GraphBuilder._convert_sentiment_to_score`: lower-cases the label, then
returns `+confidence` if some positive keyword occurs in it as a substring,
otherwise `-confidence` if some negative keyword occurs in it, otherwise `0`.
The positive test runs first, exactly as in the source. -/
def convert_sentiment_to_score (r : SentimentResult) : ℚ :=
  let label := lowerStr r.label
  if positive_labels.any (fun pos => hasSub label.data pos.data) then
    r.confidence
  else if negative_labels.any (fun neg => hasSub label.data neg.data) then
    -r.confidence
  else
    0

instance : DecidableEq (Except String SentimentResult) := fun x y =>
  match x, y with
  | Except.ok a, Except.ok b =>
    if h : a = b then isTrue (congrArg Except.ok h)
    else isFalse (fun hc => h (Except.ok.inj hc))
  | Except.error a, Except.error b =>
    if h : a = b then isTrue (congrArg Except.error h)
    else isFalse (fun hc => h (Except.error.inj hc))
  | Except.ok _, Except.error _ => isFalse (fun hc => Except.noConfusion hc)
  | Except.error _, Except.ok _ => isFalse (fun hc => Except.noConfusion hc)

/-- A sentence as consumed by `build_graph_from_sentences`: the entity
names extracted from it and the outcome of `SentimentAnalyzer.analyze` on
its text (`Except.error msg` models `analyze` raising an exception). -/
structure Sentence where
  ents : List String
  analyze : Except String SentimentResult
deriving DecidableEq

/-- `EntityExtractor.get_unique_entities`: the set of entities of a
sentence, as a duplicate-free list. -/
def uniqueEntities (s : Sentence) : List String :=
  s.ents.dedup

/-- Point increment of a counter, modelling `counter[e] += 1`. -/
def bump (f : String → ℕ) (e : String) : String → ℕ :=
  fun x => if x = e then f e + 1 else f x

/-- The `entity_counts` counter of `get_major_entities`: for every sentence,
every unique entity of the sentence is counted once. -/
def countMentions (sentences : List Sentence) : String → ℕ :=
  sentences.foldl (fun cnt s => (uniqueEntities s).foldl bump cnt) (fun _ => 0)

/-- All entities occurring in the input, in first-appearance order: the key
set of the `entity_counts` counter. -/
def allEntities (sentences : List Sentence) : List String :=
  (sentences.flatMap uniqueEntities).dedup

/-- `get_major_entities`: the entities whose mention count is at least
`min_mentions` (inclusive comparison, as in the source). -/
def majorEntities (sentences : List Sentence) (min_mentions : ℕ) : List String :=
  (allEntities sentences).filter (fun e => min_mentions ≤ countMentions sentences e)

/-- Membership test in the major-entity set, modelling
`entity in major_entities`. -/
def majorP (sentences : List Sentence) (min_mentions : ℕ) : String → Bool :=
  fun e => decide (e ∈ majorEntities sentences min_mentions)

/-- `itertools.combinations(l, 2)`: all ordered-position pairs of the list. -/
def pairsList : List String → List (String × String)
  | [] => []
  | x :: xs => xs.map (fun y => (x, y)) ++ pairsList xs

/-- The pair list of one sentence: the source only forms pairs when the
sentence has at least two unique entities. -/
def sentencePairs (s : Sentence) : List (String × String) :=
  if 2 ≤ (uniqueEntities s).length then pairsList (uniqueEntities s) else []

/-- Lexicographic strict comparison of char lists by code point, modelling
Python string comparison. -/
def strLtb : List Char → List Char → Bool
  | [], [] => false
  | [], _ :: _ => true
  | _ :: _, [] => false
  | c :: cs, d :: ds => if c < d then true else if d < c then false else strLtb cs ds

/-- Strict string comparison by code points, as Python `<` on `str`. -/
def strLt (a b : String) : Bool :=
  strLtb a.data b.data

/-- `tuple(sorted([e1, e2]))`: the canonical unordered key of a pair. -/
def canonPair (a b : String) : String × String :=
  if strLt a b then (a, b) else (b, a)

/-- The canonical key a pair contributes to the major-to-major counter,
or `none` when one member is not major. -/
def keyOf (isMajor : String → Bool) (p : String × String) : Option (String × String) :=
  if isMajor p.1 && isMajor p.2 then some (canonPair p.1 p.2) else none

/-- The per-sentence sentiment score: when sentiment is enabled the analyzer
result is converted with `_convert_sentiment_to_score`, and a raised
exception is replaced by the neutral fallback `0.0`; when sentiment is
disabled the score stays `None`. -/
def sentenceScore (use_sentiment : Bool) (s : Sentence) : Option ℚ :=
  if use_sentiment then
    some (match s.analyze with
      | Except.ok r => convert_sentiment_to_score r
      | Except.error _ => 0)
  else
    none

/-- The mutable aggregation state of `build_graph_from_sentences`:
`full_connections` and `major_to_major_connections` are `Counter`s
(default `0`), `sentiment_data` is a `defaultdict(list)` whose key
presence is tracked with `Option`. -/
structure AggState where
  full_connections : String → ℕ
  pair_count : String × String → ℕ
  sentiment_data : String × String → Option (List ℚ)

/-- The empty aggregation state. -/
def initState : AggState :=
  { full_connections := fun _ => 0
    pair_count := fun _ => 0
    sentiment_data := fun _ => none }

/-- `sentiment_data[pair].append(q)` on a `defaultdict(list)`: an absent key
is created with the empty list before appending. -/
def appendSample (sd : String × String → Option (List ℚ)) (key : String × String) (q : ℚ) :
    String × String → Option (List ℚ) :=
  fun k => if k = key then some ((sd key).getD [] ++ [q]) else sd k

/-- The body of the `for entity_1, entity_2 in pairs` loop: both entities'
full-connection counts are incremented; when both are major the canonical
pair count is incremented and, when a sentiment score exists, it is
appended to that pair's sample list. -/
def processPair (isMajor : String → Bool) (score : Option ℚ) (st : AggState)
    (p : String × String) : AggState :=
  let st1 : AggState :=
    { st with full_connections := bump (bump st.full_connections p.1) p.2 }
  match keyOf isMajor p with
  | none => st1
  | some key =>
    let st2 : AggState :=
      { st1 with pair_count := fun k => if k = key then st1.pair_count key + 1 else st1.pair_count k }
    match score with
    | none => st2
    | some q => { st2 with sentiment_data := appendSample st2.sentiment_data key q }

/-- The body of the `for sentence in sentences` loop of
`build_graph_from_sentences`. -/
def processSentence (use_sentiment : Bool) (isMajor : String → Bool) (st : AggState)
    (s : Sentence) : AggState :=
  (sentencePairs s).foldl (processPair isMajor (sentenceScore use_sentiment s)) st

/-- The whole aggregation loop of `build_graph_from_sentences`. -/
def aggregate (use_sentiment : Bool) (isMajor : String → Bool)
    (sentences : List Sentence) : AggState :=
  sentences.foldl (processSentence use_sentiment isMajor) initState

/-- Round-half-to-even on rationals, modelling Python's `round` tie rule. -/
def roundHalfEven (q : ℚ) : ℤ :=
  if q - ⌊q⌋ < 1 / 2 then ⌊q⌋
  else if 1 / 2 < q - ⌊q⌋ then ⌊q⌋ + 1
  else if ⌊q⌋ % 2 = 0 then ⌊q⌋ else ⌊q⌋ + 1

/-- Python's `round(q, 3)` on the idealized rationals. -/
def pyRound3 (q : ℚ) : ℚ :=
  (roundHalfEven (q * 1000) : ℚ) / 1000

/-- One edge of the produced graph with its attribute bag: `weight` is
always present, `sentiment` and `sentiment_count` only when set. -/
structure GraphEdge where
  src : String
  dst : String
  weight : ℕ
  sentiment : Option ℚ
  sentiment_count : Option ℕ
deriving DecidableEq

/-- The produced `networkx` graph: node list with the `full_connections`
attribute and edge list, in insertion order. -/
structure Graph where
  nodes : List (String × ℕ)
  edges : List GraphEdge
deriving DecidableEq

/-- All pair occurrences of the whole input, in processing order. -/
def occList (sentences : List Sentence) : List (String × String) :=
  sentences.flatMap sentencePairs

/-- All canonical major-to-major keys of the whole input, with multiplicity,
in processing order. -/
def keyList (isMajor : String → Bool) (sentences : List Sentence) :
    List (String × String) :=
  (occList sentences).filterMap (keyOf isMajor)

/-- The key set of the `major_to_major_connections` counter, in insertion
order: the edge keys iterated by `for (entity_1, entity_2), weight in
major_to_major_connections.items()`. -/
def pairKeys (isMajor : String → Bool) (sentences : List Sentence) :
    List (String × String) :=
  (keyList isMajor sentences).dedup

/-- Materialization of one edge: `weight` is the pair count; when sentiment
is enabled and the pair's key is present in `sentiment_data`, a non-empty
sample list yields the rounded average and the sample count, and an empty
one yields the defensive `0.0` / `0`. -/
def mkEdge (use_sentiment : Bool) (st : AggState) (k : String × String) : GraphEdge :=
  match use_sentiment, st.sentiment_data k with
  | true, some samples =>
    if samples ≠ [] then
      { src := k.1, dst := k.2, weight := st.pair_count k
        sentiment := some (pyRound3 (samples.sum / samples.length))
        sentiment_count := some samples.length }
    else
      { src := k.1, dst := k.2, weight := st.pair_count k
        sentiment := some 0, sentiment_count := some 0 }
  | _, _ =>
    { src := k.1, dst := k.2, weight := st.pair_count k
      sentiment := none, sentiment_count := none }

/-- `GraphBuilder.build_graph_from_sentences`: identify the major entities,
aggregate the per-sentence pair data, then materialize one node per major
entity (attribute `full_connections`) and one edge per counted
major-to-major pair. -/
def buildGraph (use_sentiment : Bool) (sentences : List Sentence)
    (min_mentions : ℕ) : Graph :=
  let major := majorEntities sentences min_mentions
  let isMajor := majorP sentences min_mentions
  let st := aggregate use_sentiment isMajor sentences
  { nodes := major.map (fun e => (e, st.full_connections e))
    edges := (pairKeys isMajor sentences).map (mkEdge use_sentiment st) }

/-- Degree of a node in the materialized graph: the number of edges
incident to it. -/
def degreeIn (g : Graph) (e : String) : ℕ :=
  (g.edges.filter (fun ed => decide (ed.src = e) || decide (ed.dst = e))).length

/-- The spec-level sample list one sentence contributes to the key `k`:
one copy of the sentence's score per major-to-major pair of the sentence
with canonical key `k` (empty when sentiment is disabled). -/
def sentSamples (use_sentiment : Bool) (isMajor : String → Bool) (s : Sentence)
    (k : String × String) : List ℚ :=
  match sentenceScore use_sentiment s with
  | none => []
  | some q => List.replicate (((sentencePairs s).filterMap (keyOf isMajor)).count k) q

/-- The spec-level sample list of the key `k` over the whole input. -/
def samplesOf (use_sentiment : Bool) (isMajor : String → Bool)
    (sentences : List Sentence) (k : String × String) : List ℚ :=
  sentences.flatMap (fun s => sentSamples use_sentiment isMajor s k)

/-- Pair-participation indicator of an entity, with multiplicity. -/
def incOf (e : String) (p : String × String) : ℕ :=
  (if e = p.1 then 1 else 0) + (if e = p.2 then 1 else 0)

/-- The sentences of the worked scenario of the specification:
per-sentence entity sets {Alice, Bob}, {Alice}, {Alice, Bob, Carol};
sentiment is not used in the scenario. -/
def scenarioSentences : List Sentence :=
  [ { ents := ["Alice", "Bob"], analyze := Except.error "" }
  , { ents := ["Alice"], analyze := Except.error "" }
  , { ents := ["Alice", "Bob", "Carol"], analyze := Except.error "" } ]

/-- A sentence over the pair {A, B} whose analyzer result "joy" scores `+0.5`. -/
def joySentence : Sentence :=
  { ents := ["A", "B"], analyze := Except.ok { label := "joy", confidence := 1/2 } }

/-- A sentence over the pair {A, B} whose analyzer result "anger" scores `-0.5`. -/
def angerSentence : Sentence :=
  { ents := ["A", "B"], analyze := Except.ok { label := "anger", confidence := 1/2 } }

/-- Two sentences over the pair {A, B}, one scored `+0.5` and one scored
`-0.5`: the sample-averaging example of the specification. -/
def halfSentences : List Sentence :=
  [joySentence, angerSentence]

/-- The single edge produced from `halfSentences` with sentiment enabled. -/
def halfEdge : GraphEdge :=
  { src := "A", dst := "B", weight := 2, sentiment := some 0, sentiment_count := some 2 }


/-! ### Counting lemmas for the mention counter -/

theorem bump_apply (f : String → ℕ) (a x : String) :
    bump f a x = f x + (if x = a then 1 else 0) := by
  unfold bump
  by_cases h : x = a
  · subst h; simp
  · simp [h]

theorem foldl_bump_count (l : List String) (cnt : String → ℕ) (e : String) :
    (l.foldl bump cnt) e = cnt e + l.count e := by
  induction l generalizing cnt with
  | nil => simp
  | cons x xs ih =>
    simp only [List.foldl_cons, ih, bump_apply, List.count_cons, beq_iff_eq]
    by_cases h : e = x
    · subst h; simp; omega
    · simp [h, Ne.symm h]

theorem count_uniqueEntities (s : Sentence) (e : String) :
    (uniqueEntities s).count e = if e ∈ s.ents then 1 else 0 := by
  unfold uniqueEntities
  rw [List.count_dedup]

theorem countMentions_eq (sentences : List Sentence) (e : String) :
    countMentions sentences e = sentences.countP (fun s => decide (e ∈ s.ents)) := by
  suffices h : ∀ (ss : List Sentence) (cnt : String → ℕ),
      (ss.foldl (fun c s => (uniqueEntities s).foldl bump c) cnt) e
        = cnt e + ss.countP (fun s => decide (e ∈ s.ents)) by
    simpa [countMentions] using h sentences (fun _ => 0)
  intro ss
  induction ss with
  | nil => simp
  | cons s ss ih =>
    intro cnt
    simp only [List.foldl_cons, ih, foldl_bump_count, count_uniqueEntities, List.countP_cons]
    by_cases h : e ∈ s.ents
    · simp [h]
      omega
    · simp [h]

theorem mem_allEntities (sentences : List Sentence) (e : String) :
    e ∈ allEntities sentences ↔ ∃ s ∈ sentences, e ∈ s.ents := by
  unfold allEntities uniqueEntities
  simp [List.mem_dedup, List.mem_flatMap]

theorem mem_majorEntities (sentences : List Sentence) (m : ℕ) (e : String) :
    e ∈ majorEntities sentences m ↔ e ∈ allEntities sentences ∧ m ≤ countMentions sentences e := by
  unfold majorEntities
  simp [List.mem_filter]

theorem countMentions_pos_mem (sentences : List Sentence) (e : String)
    (h : 0 < countMentions sentences e) : e ∈ allEntities sentences := by
  rw [countMentions_eq] at h
  rw [mem_allEntities]
  obtain ⟨s, hs, he⟩ := List.countP_pos_iff.mp h
  exact ⟨s, hs, of_decide_eq_true he⟩

/-! ### Step lemmas for the pair loop -/

theorem processPair_full (isMajor : String → Bool) (sc : Option ℚ) (st : AggState)
    (p : String × String) (e : String) :
    (processPair isMajor sc st p).full_connections e
      = st.full_connections e + incOf e p := by
  unfold processPair incOf
  cases hk : keyOf isMajor p with
  | none =>
    simp only [bump_apply]
    omega
  | some key =>
    cases sc with
    | none =>
      simp only [bump_apply]
      omega
    | some q =>
      simp only [bump_apply]
      omega

theorem processPair_count (isMajor : String → Bool) (sc : Option ℚ) (st : AggState)
    (p : String × String) (k : String × String) :
    (processPair isMajor sc st p).pair_count k
      = st.pair_count k + (if keyOf isMajor p = some k then 1 else 0) := by
  unfold processPair
  cases hk : keyOf isMajor p with
  | none => simp
  | some key =>
    cases sc with
    | none =>
      by_cases h : k = key
      · subst h; simp
      · simp [h, Ne.symm h]
    | some q =>
      by_cases h : k = key
      · subst h; simp
      · simp [h, Ne.symm h]

theorem processPair_sd_none (isMajor : String → Bool) (st : AggState)
    (p : String × String) (k : String × String) :
    (processPair isMajor none st p).sentiment_data k = st.sentiment_data k := by
  unfold processPair
  cases hk : keyOf isMajor p <;> simp

theorem processPair_sd_some (isMajor : String → Bool) (q : ℚ) (st : AggState)
    (p : String × String) (k : String × String) :
    (processPair isMajor (some q) st p).sentiment_data k
      = if keyOf isMajor p = some k
          then some ((st.sentiment_data k).getD [] ++ [q])
          else st.sentiment_data k := by
  unfold processPair appendSample
  cases hk : keyOf isMajor p with
  | none => simp
  | some key =>
    by_cases h : k = key
    · subst h; simp
    · simp [h, Ne.symm h]

/-! ### Characterization of the pair-list fold -/

theorem foldl_processPair_full (l : List (String × String)) (isMajor : String → Bool)
    (sc : Option ℚ) (st : AggState) (e : String) :
    ((l.foldl (processPair isMajor sc) st).full_connections e)
      = st.full_connections e + (l.map (incOf e)).sum := by
  induction l generalizing st with
  | nil => simp
  | cons p l ih =>
    simp only [List.foldl_cons, ih, processPair_full, List.map_cons, List.sum_cons]
    omega

theorem foldl_processPair_count (l : List (String × String)) (isMajor : String → Bool)
    (sc : Option ℚ) (st : AggState) (k : String × String) :
    ((l.foldl (processPair isMajor sc) st).pair_count k)
      = st.pair_count k + (l.filterMap (keyOf isMajor)).count k := by
  induction l generalizing st with
  | nil => simp
  | cons p l ih =>
    simp only [List.foldl_cons, ih, processPair_count]
    cases hk : keyOf isMajor p with
    | none => simp [List.filterMap_cons, hk]
    | some key =>
      simp only [List.filterMap_cons, hk, List.count_cons, beq_iff_eq]
      by_cases h : key = k
      · subst h; simp; omega
      · rw [if_neg (fun hc : some key = some k => h (Option.some.inj hc))]
        rw [if_neg h]
        omega

theorem foldl_processPair_sd_none (l : List (String × String)) (isMajor : String → Bool)
    (st : AggState) (k : String × String) :
    ((l.foldl (processPair isMajor none) st).sentiment_data k) = st.sentiment_data k := by
  induction l generalizing st with
  | nil => rfl
  | cons p l ih => simp only [List.foldl_cons, ih, processPair_sd_none]

theorem foldl_processPair_sd_some (l : List (String × String)) (isMajor : String → Bool)
    (q : ℚ) (st : AggState) (k : String × String) :
    ((l.foldl (processPair isMajor (some q)) st).sentiment_data k)
      = (if (l.filterMap (keyOf isMajor)).count k = 0
          then st.sentiment_data k
          else some ((st.sentiment_data k).getD []
                      ++ List.replicate ((l.filterMap (keyOf isMajor)).count k) q)) := by
  induction l generalizing st with
  | nil => simp
  | cons p l ih =>
    simp only [List.foldl_cons, ih, processPair_sd_some]
    cases hk : keyOf isMajor p with
    | none =>
      simp [List.filterMap_cons, hk]
    | some key =>
      by_cases h : key = k
      · subst h
        rw [List.filterMap_cons, hk, List.count_cons_self]
        by_cases hn : (l.filterMap (keyOf isMajor)).count key = 0
        · rw [hn]
          simp [List.replicate_succ]
        · rw [if_neg hn, if_neg (by omega : ¬ (l.filterMap (keyOf isMajor)).count key + 1 = 0)]
          simp [List.append_assoc, List.replicate_succ]
      · have hne : ¬ some key = some k := fun hc => h (Option.some.inj hc)
        rw [List.filterMap_cons, hk, List.count_cons_of_ne (fun hc => h hc.symm)]
        simp only [if_neg hne]

/-! ### Characterization of the whole aggregation -/

theorem processSentence_full (u : Bool) (isMajor : String → Bool) (st : AggState)
    (s : Sentence) (e : String) :
    (processSentence u isMajor st s).full_connections e
      = st.full_connections e + ((sentencePairs s).map (incOf e)).sum := by
  unfold processSentence
  exact foldl_processPair_full _ _ _ _ _

theorem processSentence_count (u : Bool) (isMajor : String → Bool) (st : AggState)
    (s : Sentence) (k : String × String) :
    (processSentence u isMajor st s).pair_count k
      = st.pair_count k + ((sentencePairs s).filterMap (keyOf isMajor)).count k := by
  unfold processSentence
  exact foldl_processPair_count _ _ _ _ _

theorem processSentence_sd (u : Bool) (isMajor : String → Bool) (st : AggState)
    (s : Sentence) (k : String × String) :
    (processSentence u isMajor st s).sentiment_data k
      = if sentSamples u isMajor s k = [] then st.sentiment_data k
        else some ((st.sentiment_data k).getD [] ++ sentSamples u isMajor s k) := by
  unfold processSentence sentSamples
  cases hs : sentenceScore u s with
  | none =>
    rw [foldl_processPair_sd_none]
    simp
  | some q =>
    rw [foldl_processPair_sd_some]
    by_cases hn : ((sentencePairs s).filterMap (keyOf isMajor)).count k = 0
    · simp [hn]
    · simp only [hn, if_false]
      rw [if_neg (by simpa using hn)]

theorem aggregate_full (u : Bool) (isMajor : String → Bool) (sentences : List Sentence)
    (e : String) :
    (aggregate u isMajor sentences).full_connections e
      = ((occList sentences).map (incOf e)).sum := by
  suffices h : ∀ (ss : List Sentence) (st : AggState),
      (ss.foldl (processSentence u isMajor) st).full_connections e
        = st.full_connections e + ((occList ss).map (incOf e)).sum by
    simpa [aggregate, initState] using h sentences initState
  intro ss
  induction ss with
  | nil => simp [occList]
  | cons s ss ih =>
    intro st
    simp only [List.foldl_cons, ih, processSentence_full, occList, List.flatMap_cons,
      List.map_append, List.sum_append]
    omega

theorem aggregate_count (u : Bool) (isMajor : String → Bool) (sentences : List Sentence)
    (k : String × String) :
    (aggregate u isMajor sentences).pair_count k = (keyList isMajor sentences).count k := by
  suffices h : ∀ (ss : List Sentence) (st : AggState),
      (ss.foldl (processSentence u isMajor) st).pair_count k
        = st.pair_count k + (keyList isMajor ss).count k by
    simpa [aggregate, initState] using h sentences initState
  intro ss
  induction ss with
  | nil => simp [keyList, occList]
  | cons s ss ih =>
    intro st
    simp only [List.foldl_cons, ih, processSentence_count, keyList, occList, List.flatMap_cons,
      List.filterMap_append, List.count_append]
    omega

theorem aggregate_sd (u : Bool) (isMajor : String → Bool) (sentences : List Sentence)
    (k : String × String) :
    (aggregate u isMajor sentences).sentiment_data k
      = if samplesOf u isMajor sentences k = [] then none
        else some (samplesOf u isMajor sentences k) := by
  suffices h : ∀ (ss : List Sentence) (st : AggState),
      (ss.foldl (processSentence u isMajor) st).sentiment_data k
        = if samplesOf u isMajor ss k = [] then st.sentiment_data k
          else some ((st.sentiment_data k).getD [] ++ samplesOf u isMajor ss k) by
    simpa [aggregate, initState] using h sentences initState
  intro ss
  induction ss with
  | nil => simp [samplesOf]
  | cons s ss ih =>
    intro st
    have hcons : samplesOf u isMajor (s :: ss) k
        = sentSamples u isMajor s k ++ samplesOf u isMajor ss k := by
      simp [samplesOf]
    simp only [List.foldl_cons, ih, processSentence_sd, hcons]
    by_cases h1 : sentSamples u isMajor s k = []
    · simp [h1]
    · by_cases h2 : samplesOf u isMajor ss k = []
      · simp [h1, h2]
      · have h3 : ¬ sentSamples u isMajor s k ++ samplesOf u isMajor ss k = [] := by
          simp [h1]
        simp only [h1, h2, h3, if_false, if_neg h1, if_neg h2, if_neg h3]
        simp [List.append_assoc]

/-! ### Order facts for the canonical pair key -/

theorem strLtb_asymm (l m : List Char) (h : strLtb l m = true) : strLtb m l = false := by
  induction l generalizing m with
  | nil =>
    cases m with
    | nil => simp [strLtb] at h
    | cons d ds => simp [strLtb]
  | cons c cs ih =>
    cases m with
    | nil => simp [strLtb] at h
    | cons d ds =>
      by_cases hcd : c < d
      · simp [strLtb, hcd, lt_asymm hcd]
      · by_cases hdc : d < c
        · simp [strLtb, hcd, hdc] at h
        · have hc : c = d := le_antisymm (not_lt.mp hdc) (not_lt.mp hcd)
          subst hc
          simp only [strLtb, lt_irrefl, if_false] at h ⊢
          exact ih ds h

theorem strLtb_eq_of_not (l m : List Char) (h1 : strLtb l m = false)
    (h2 : strLtb m l = false) : l = m := by
  induction l generalizing m with
  | nil =>
    cases m with
    | nil => rfl
    | cons d ds => simp [strLtb] at h1
  | cons c cs ih =>
    cases m with
    | nil => simp [strLtb] at h2
    | cons d ds =>
      by_cases hcd : c < d
      · simp [strLtb, hcd] at h1
      · by_cases hdc : d < c
        · simp [strLtb, hdc] at h2
        · have hc : c = d := le_antisymm (not_lt.mp hdc) (not_lt.mp hcd)
          subst hc
          simp only [strLtb, lt_irrefl, if_false] at h1 h2
          rw [ih ds h1 h2]

theorem strLt_eq_of_not (a b : String) (h1 : strLt a b = false)
    (h2 : strLt b a = false) : a = b := by
  unfold strLt at h1 h2
  have h := strLtb_eq_of_not _ _ h1 h2
  cases a
  cases b
  simp_all

theorem canonPair_comm (a b : String) : canonPair a b = canonPair b a := by
  unfold canonPair
  cases hab : strLt a b with
  | true =>
    have hba : strLt b a = false := strLtb_asymm _ _ hab
    simp [hba]
  | false =>
    cases hba : strLt b a with
    | true => simp
    | false =>
      have : a = b := strLt_eq_of_not a b hab hba
      subst this
      simp

theorem canonPair_lt (a b : String) (h : a ≠ b) :
    strLt (canonPair a b).1 (canonPair a b).2 = true := by
  unfold canonPair
  cases hab : strLt a b with
  | true => simpa using hab
  | false =>
    cases hba : strLt b a with
    | true => simpa using hba
    | false => exact absurd (strLt_eq_of_not a b hab hba) h

theorem canonPair_cases (a b : String) :
    canonPair a b = (a, b) ∨ canonPair a b = (b, a) := by
  unfold canonPair
  cases hab : strLt a b with
  | true => left; simp
  | false => right; simp

/-! ### Structure of the pair list and the key list -/

theorem mem_pairsList (l : List String) (p : String × String) (hp : p ∈ pairsList l) :
    p.1 ∈ l ∧ p.2 ∈ l := by
  induction l with
  | nil => simp [pairsList] at hp
  | cons x xs ih =>
    simp only [pairsList, List.mem_append, List.mem_map] at hp
    rcases hp with ⟨y, hy, rfl⟩ | hp
    · exact ⟨List.mem_cons_self x xs, List.mem_cons_of_mem x hy⟩
    · have h := ih hp
      exact ⟨List.mem_cons_of_mem x h.1, List.mem_cons_of_mem x h.2⟩

theorem pairsList_ne (l : List String) (hl : l.Nodup) (p : String × String)
    (hp : p ∈ pairsList l) : p.1 ≠ p.2 := by
  induction l with
  | nil => simp [pairsList] at hp
  | cons x xs ih =>
    simp only [pairsList, List.mem_append, List.mem_map] at hp
    rcases hp with ⟨y, hy, rfl⟩ | hp
    · intro hxy
      have hxy' : x = y := hxy
      subst hxy'
      exact (List.nodup_cons.mp hl).1 hy
    · exact ih (List.nodup_cons.mp hl).2 hp

theorem sentencePairs_ne (s : Sentence) (p : String × String)
    (hp : p ∈ sentencePairs s) : p.1 ≠ p.2 := by
  unfold sentencePairs at hp
  split at hp
  · exact pairsList_ne _ (List.nodup_dedup _) p hp
  · simp at hp

theorem mem_occList_ne (sentences : List Sentence) (p : String × String)
    (hp : p ∈ occList sentences) : p.1 ≠ p.2 := by
  unfold occList at hp
  obtain ⟨s, _, hps⟩ := List.mem_flatMap.mp hp
  exact sentencePairs_ne s p hps

theorem keyOf_eq_some (isMajor : String → Bool) (p k : String × String)
    (h : keyOf isMajor p = some k) :
    k = canonPair p.1 p.2 ∧ isMajor p.1 = true ∧ isMajor p.2 = true := by
  unfold keyOf at h
  by_cases hm : isMajor p.1 && isMajor p.2
  · rw [if_pos hm] at h
    have hmm := hm
    simp only [Bool.and_eq_true] at hmm
    exact ⟨(Option.some.inj h).symm, hmm.1, hmm.2⟩
  · rw [if_neg hm] at h
    exact absurd h (by simp)

theorem mem_keyList_lt (isMajor : String → Bool) (sentences : List Sentence)
    (k : String × String) (hk : k ∈ keyList isMajor sentences) :
    strLt k.1 k.2 = true := by
  unfold keyList at hk
  obtain ⟨p, hp, hpk⟩ := List.mem_filterMap.mp hk
  obtain ⟨hcanon, _, _⟩ := keyOf_eq_some _ _ _ hpk
  rw [hcanon]
  exact canonPair_lt _ _ (mem_occList_ne sentences p hp)

theorem mkEdge_src_dst (u : Bool) (st : AggState) (k : String × String) :
    (mkEdge u st k).src = k.1 ∧ (mkEdge u st k).dst = k.2 := by
  unfold mkEdge
  cases u with
  | false => cases h : st.sentiment_data k <;> simp
  | true =>
    cases h : st.sentiment_data k with
    | none => simp
    | some samples =>
      by_cases hs : samples = []
      · simp [hs]
      · simp [hs]

theorem samplesOf_length_true (isMajor : String → Bool) (sentences : List Sentence)
    (k : String × String) :
    (samplesOf true isMajor sentences k).length = (keyList isMajor sentences).count k := by
  unfold samplesOf keyList occList
  induction sentences with
  | nil => simp
  | cons s ss ih =>
    simp only [List.flatMap_cons, List.length_append, List.filterMap_append,
      List.count_append, ih]
    congr 1
    unfold sentSamples
    cases hs : sentenceScore true s with
    | none => simp [sentenceScore] at hs
    | some q => simp

/-! ### Claim theorems -/

/-- C1, counterexample: on the scenario input with `min_mentions = 2` the
built graph carries the node attribute `full_connections = 3` for Bob, not
`2` as claimed (Bob is paired with Alice in sentences 1 and 3 and with
Carol in sentence 3). -/
theorem claim1_counterexample :
    ("Bob", 3) ∈ (buildGraph false scenarioSentences 2).nodes ∧
    ("Bob", 2) ∉ (buildGraph false scenarioSentences 2).nodes := by
  decide

/-- C1, amended: on the scenario input with `min_mentions = 2` the mention
counts are Alice 3, Bob 2, Carol 1; the major set is {Alice, Bob}; the graph
has exactly the nodes Alice and Bob with `full_connections` 3 and 3, exactly
one edge Alice-Bob with weight 2, and no node for Carol. -/
theorem claim1_amended :
    countMentions scenarioSentences "Alice" = 3 ∧
    countMentions scenarioSentences "Bob" = 2 ∧
    countMentions scenarioSentences "Carol" = 1 ∧
    majorEntities scenarioSentences 2 = ["Alice", "Bob"] ∧
    (buildGraph false scenarioSentences 2).nodes = [("Alice", 3), ("Bob", 3)] ∧
    (buildGraph false scenarioSentences 2).edges =
      [{ src := "Alice", dst := "Bob", weight := 2, sentiment := none, sentiment_count := none }] ∧
    "Carol" ∉ ((buildGraph false scenarioSentences 2).nodes.map Prod.fst) := by
  decide

/-- C2: the claim that the label "disapproval" is scored `-confidence`
fails on the code: "disapproval" does contain the negative keyword
"disapproval", but the positive-keyword check runs first and "approval" is
a substring of "disapproval", so `_convert_sentiment_to_score` returns
`+confidence` for every confidence value. -/
theorem claim2_code_bug (c : ℚ) :
    negative_labels.any (fun neg => hasSub (lowerStr "disapproval").data neg.data) = true ∧
    convert_sentiment_to_score { label := "disapproval", confidence := c } = c := by
  constructor
  · decide
  · have hpos : positive_labels.any
        (fun pos => hasSub (lowerStr "disapproval").data pos.data) = true := by decide
    simp [convert_sentiment_to_score, hpos]

/-- C7: the empty sentence sequence is a valid degenerate input: every
threshold yields empty mention counts, an empty major set and an empty
graph. -/
theorem claim7_empty_input (u : Bool) (m : ℕ) (e : String) :
    buildGraph u [] m = { nodes := [], edges := [] } ∧
    countMentions [] e = 0 ∧
    majorEntities [] m = [] ∧
    allEntities [] = [] := by
  exact ⟨rfl, rfl, rfl, rfl⟩

/-- C5: the major-entity set of `get_major_entities` is exactly the set of
tracked entities whose mention count (the number of sentences the entity
occurs in) reaches the inclusive threshold; for thresholds at least 1 the
tracking restriction is vacuous; and the major set is antitone in the
threshold. -/
theorem claim5_major_set (sentences : List Sentence) (m : ℕ) (e : String) :
    (e ∈ majorEntities sentences m ↔
      e ∈ allEntities sentences ∧ m ≤ countMentions sentences e) ∧
    countMentions sentences e = (sentences.filter (fun s => decide (e ∈ s.ents))).length ∧
    (1 ≤ m → (e ∈ majorEntities sentences m ↔ m ≤ countMentions sentences e)) ∧
    (∀ m1 m2, m1 ≤ m2 → e ∈ majorEntities sentences m2 → e ∈ majorEntities sentences m1) := by
  refine ⟨mem_majorEntities _ _ _, ?_, ?_, ?_⟩
  · rw [countMentions_eq, List.countP_eq_length_filter]
  · intro hm
    rw [mem_majorEntities]
    constructor
    · exact fun h => h.2
    · intro hc
      exact ⟨countMentions_pos_mem _ _ (lt_of_lt_of_le hm hc), hc⟩
  · intro m1 m2 h12 hmem
    rw [mem_majorEntities] at hmem ⊢
    exact ⟨hmem.1, le_trans h12 hmem.2⟩

/-- C5, witness: instantiation of `claim5_major_set` on the scenario input
with both implication hypotheses discharged at concrete values. -/
theorem claim5_major_set_witness :
    "Alice" ∈ majorEntities scenarioSentences 2 ∧
    "Alice" ∈ majorEntities scenarioSentences 1 := by
  constructor
  · exact ((claim5_major_set scenarioSentences 2 "Alice").2.2.1 (by decide)).mpr (by decide)
  · exact (claim5_major_set scenarioSentences 1 "Alice").2.2.2 1 2 (by decide) (by decide)

/-- C4: the pair counter is keyed canonically, so the canonical key of
(a, b) and of (b, a) coincide and the counter cannot distinguish the two
orders; the materialized graph has pairwise distinct (source, target)
pairs, and every edge has its endpoints in strictly increasing
lexicographic order (in particular no self-loop and no reversed
duplicate). -/
theorem claim4_canonical_simple (u : Bool) (sentences : List Sentence) (m : ℕ) :
    (∀ a b, canonPair a b = canonPair b a) ∧
    (∀ a b, (aggregate u (majorP sentences m) sentences).pair_count (canonPair a b)
        = (aggregate u (majorP sentences m) sentences).pair_count (canonPair b a)) ∧
    ((buildGraph u sentences m).edges.map (fun ed => (ed.src, ed.dst))).Nodup ∧
    (∀ ed ∈ (buildGraph u sentences m).edges, strLt ed.src ed.dst = true) := by
  refine ⟨canonPair_comm, fun a b => by rw [canonPair_comm], ?_, ?_⟩
  · simp only [buildGraph]
    rw [List.map_map]
    have hmap : (pairKeys (majorP sentences m) sentences).map
        ((fun ed => (ed.src, ed.dst)) ∘ mkEdge u (aggregate u (majorP sentences m) sentences))
        = pairKeys (majorP sentences m) sentences := by
      have hid : ∀ k, ((fun (ed : GraphEdge) => (ed.src, ed.dst)) ∘
          mkEdge u (aggregate u (majorP sentences m) sentences)) k = k := by
        intro k
        obtain ⟨h1, h2⟩ := mkEdge_src_dst u (aggregate u (majorP sentences m) sentences) k
        simp [Function.comp, h1, h2]
      rw [List.map_congr_left (fun k _ => hid k)]
      simp
    rw [hmap]
    exact List.nodup_dedup _
  · intro ed hed
    simp only [buildGraph] at hed
    obtain ⟨k, hk, hke⟩ := List.mem_map.mp hed
    obtain ⟨h1, h2⟩ := mkEdge_src_dst u (aggregate u (majorP sentences m) sentences) k
    rw [hke] at h1 h2
    rw [h1, h2]
    exact mem_keyList_lt _ _ _ (List.mem_dedup.mp hk)

/-- C4, witness: instantiation of `claim4_canonical_simple` on the scenario
input, discharging the edge-membership hypothesis at the concrete
Alice-Bob edge. -/
theorem claim4_canonical_simple_witness :
    strLt "Alice" "Bob" = true :=
  (claim4_canonical_simple false scenarioSentences 2).2.2.2
    { src := "Alice", dst := "Bob", weight := 2, sentiment := none, sentiment_count := none }
    (by decide)

theorem countP_filterMap_le (isMajor : String → Bool)
    (occs : List (String × String)) (e : String) :
    ((occs.filterMap (keyOf isMajor)).countP
        (fun k => decide (k.1 = e) || decide (k.2 = e)))
      ≤ (occs.map (incOf e)).sum := by
  induction occs with
  | nil => simp
  | cons p occs ih =>
    rw [List.filterMap_cons]
    cases hk : keyOf isMajor p with
    | none =>
      simp only [List.map_cons, List.sum_cons]
      exact le_trans ih (Nat.le_add_left _ _)
    | some k =>
      rw [List.countP_cons]
      simp only [List.map_cons, List.sum_cons]
      cases hke : (decide (k.1 = e) || decide (k.2 = e)) with
      | false =>
        rw [show (if false = true then 1 else 0) = 0 from rfl]
        omega
      | true =>
        have h1 : 1 ≤ incOf e p := by
          obtain ⟨hc, _, _⟩ := keyOf_eq_some _ _ _ hk
          have hor : k.1 = e ∨ k.2 = e := by simpa using hke
          have hpe : e = p.1 ∨ e = p.2 := by
            rcases canonPair_cases p.1 p.2 with hcc | hcc <;> rw [hc, hcc] at hor <;>
              rcases hor with h | h
            · exact Or.inl h.symm
            · exact Or.inr h.symm
            · exact Or.inr h.symm
            · exact Or.inl h.symm
          unfold incOf
          rcases hpe with h | h
          · rw [if_pos h]; omega
          · rw [if_pos h]; omega
        rw [show (if true = true then 1 else 0) = 1 from rfl]
        omega

/-- C3: for every input, threshold and sentiment flag, every node of the
built graph has a `full_connections` attribute at least as large as its
degree in the materialized major-entity graph. -/
theorem claim3_full_ge_degree (u : Bool) (sentences : List Sentence) (m : ℕ)
    (e : String) (fc : ℕ)
    (h : (e, fc) ∈ (buildGraph u sentences m).nodes) :
    degreeIn (buildGraph u sentences m) e ≤ fc := by
  simp only [buildGraph] at h
  obtain ⟨e2, _, heq⟩ := List.mem_map.mp h
  have he : e2 = e := congrArg Prod.fst heq
  subst he
  have hfc : fc = (aggregate u (majorP sentences m) sentences).full_connections e2 :=
    (congrArg Prod.snd heq).symm
  subst hfc
  unfold degreeIn
  simp only [buildGraph]
  rw [List.filter_map, List.length_map]
  have hcong : (pairKeys (majorP sentences m) sentences).filter
      ((fun ed => decide (ed.src = e2) || decide (ed.dst = e2))
        ∘ mkEdge u (aggregate u (majorP sentences m) sentences))
      = (pairKeys (majorP sentences m) sentences).filter
          (fun k => decide (k.1 = e2) || decide (k.2 = e2)) := by
    apply List.filter_congr
    intro k _
    obtain ⟨h1, h2⟩ := mkEdge_src_dst u (aggregate u (majorP sentences m) sentences) k
    simp [Function.comp, h1, h2]
  rw [hcong]
  calc ((pairKeys (majorP sentences m) sentences).filter
          (fun k => decide (k.1 = e2) || decide (k.2 = e2))).length
      ≤ ((keyList (majorP sentences m) sentences).filter
          (fun k => decide (k.1 = e2) || decide (k.2 = e2))).length :=
        ((List.dedup_sublist _).filter _).length_le
    _ = (keyList (majorP sentences m) sentences).countP
          (fun k => decide (k.1 = e2) || decide (k.2 = e2)) :=
        (List.countP_eq_length_filter _ _).symm
    _ ≤ ((occList sentences).map (incOf e2)).sum :=
        countP_filterMap_le (majorP sentences m) (occList sentences) e2
    _ = (aggregate u (majorP sentences m) sentences).full_connections e2 :=
        (aggregate_full u (majorP sentences m) sentences e2).symm

/-- C3, witness: instantiation of `claim3_full_ge_degree` on the scenario
input at the node Alice. -/
theorem claim3_full_ge_degree_witness :
    degreeIn (buildGraph false scenarioSentences 2) "Alice" ≤ 3 :=
  claim3_full_ge_degree false scenarioSentences 2 "Alice" 3 (by decide)

/-- C8: a sentence whose analyzer call raises gets the neutral fallback
score `0.0`; the whole aggregation is identical to the one where that
sentence's analyzer returns a neutral result, so the exception neither
propagates nor aborts the remaining sentences; and the co-occurrence
counters never depend on the analyzer outcome at all. -/
theorem claim8_neutral_fallback (isMajor : String → Bool) (ss1 ss2 : List Sentence)
    (s : Sentence) (msg : String) (h : s.analyze = Except.error msg) :
    sentenceScore true s = some 0 ∧
    aggregate true isMajor (ss1 ++ s :: ss2)
      = aggregate true isMajor
          (ss1 ++ { ents := s.ents
                    analyze := Except.ok { label := "neutral", confidence := 1 } } :: ss2) ∧
    (∀ (r : SentimentResult) (k : String × String) (e : String),
      (aggregate true isMajor (ss1 ++ s :: ss2)).pair_count k
          = (aggregate true isMajor
              (ss1 ++ { ents := s.ents, analyze := Except.ok r } :: ss2)).pair_count k ∧
      (aggregate true isMajor (ss1 ++ s :: ss2)).full_connections e
          = (aggregate true isMajor
              (ss1 ++ { ents := s.ents, analyze := Except.ok r } :: ss2)).full_connections e) := by
  have hscore : sentenceScore true s = some 0 := by
    unfold sentenceScore
    rw [h]
    rfl
  refine ⟨hscore, ?_, ?_⟩
  · have hneutral : convert_sentiment_to_score { label := "neutral", confidence := 1 } = 0 := by
      decide
    have hscore2 : sentenceScore true
        ({ ents := s.ents, analyze := Except.ok { label := "neutral", confidence := 1 } } : Sentence)
        = some 0 := by
      simp [sentenceScore, hneutral]
    have hps : ∀ st : AggState,
        processSentence true isMajor st s
          = processSentence true isMajor st
              { ents := s.ents, analyze := Except.ok { label := "neutral", confidence := 1 } } := by
      intro st
      unfold processSentence
      rw [hscore, hscore2]
      rfl
    unfold aggregate
    rw [List.foldl_append, List.foldl_append, List.foldl_cons, List.foldl_cons, hps]
  · intro r k e
    have hsp : sentencePairs { ents := s.ents, analyze := Except.ok r } = sentencePairs s := rfl
    constructor
    · rw [aggregate_count, aggregate_count]
      unfold keyList occList
      rw [List.flatMap_append, List.flatMap_append, List.flatMap_cons, List.flatMap_cons, hsp]
    · rw [aggregate_full, aggregate_full]
      unfold occList
      rw [List.flatMap_append, List.flatMap_append, List.flatMap_cons, List.flatMap_cons, hsp]

/-- C8, witness: instantiation of `claim8_neutral_fallback` on a concrete
failing sentence, with the exception hypothesis discharged by computation. -/
theorem claim8_neutral_fallback_witness :
    sentenceScore true { ents := ["A", "B"], analyze := Except.error "boom" } = some 0 :=
  (claim8_neutral_fallback (fun _ => true) [] []
    { ents := ["A", "B"], analyze := Except.error "boom" } "boom" rfl).1

/-- C9: permuting the input sentences permutes the node and the edge lists
of the built graph, so the node set, the edge set and every attribute value
(`full_connections`, `weight`, `sentiment`, `sentiment_count`) are
unchanged; only iteration order (and the append order inside the sample
lists) can differ. -/
theorem claim9_order_invariance (u : Bool) (m : ℕ) (ss1 ss2 : List Sentence)
    (hp : List.Perm ss1 ss2) :
    List.Perm (buildGraph u ss1 m).nodes (buildGraph u ss2 m).nodes ∧
    List.Perm (buildGraph u ss1 m).edges (buildGraph u ss2 m).edges := by
  have hcm : ∀ e, countMentions ss1 e = countMentions ss2 e := by
    intro e
    rw [countMentions_eq, countMentions_eq, hp.countP_eq]
  have hae : List.Perm (allEntities ss1) (allEntities ss2) :=
    (hp.flatMap_right uniqueEntities).dedup
  have hmaj : List.Perm (majorEntities ss1 m) (majorEntities ss2 m) := by
    unfold majorEntities
    have hfun : (fun e => decide (m ≤ countMentions ss2 e))
        = (fun e => decide (m ≤ countMentions ss1 e)) := by
      funext e
      rw [hcm e]
    rw [hfun]
    exact hae.filter _
  have hP : majorP ss1 m = majorP ss2 m := by
    funext e
    unfold majorP
    exact decide_eq_decide.mpr hmaj.mem_iff
  have hocc : List.Perm (occList ss1) (occList ss2) := hp.flatMap_right sentencePairs
  have hfc : ∀ e, (aggregate u (majorP ss1 m) ss1).full_connections e
      = (aggregate u (majorP ss2 m) ss2).full_connections e := by
    intro e
    rw [aggregate_full, aggregate_full]
    exact (hocc.map (incOf e)).sum_eq
  have hpc : ∀ k, (aggregate u (majorP ss1 m) ss1).pair_count k
      = (aggregate u (majorP ss2 m) ss2).pair_count k := by
    intro k
    rw [aggregate_count, aggregate_count, ← hP]
    unfold keyList
    exact (hocc.filterMap (keyOf (majorP ss1 m))).countP_eq (fun x => x == k)
  have hsamp : ∀ k, List.Perm (samplesOf u (majorP ss1 m) ss1 k)
      (samplesOf u (majorP ss2 m) ss2 k) := by
    intro k
    rw [← hP]
    exact hp.flatMap_right _
  have hmk : ∀ k, mkEdge u (aggregate u (majorP ss1 m) ss1) k
      = mkEdge u (aggregate u (majorP ss2 m) ss2) k := by
    intro k
    have hsd1 := aggregate_sd u (majorP ss1 m) ss1 k
    have hsd2 := aggregate_sd u (majorP ss2 m) ss2 k
    by_cases he : samplesOf u (majorP ss1 m) ss1 k = []
    · have he2 : samplesOf u (majorP ss2 m) ss2 k = [] := by
        have hh := hsamp k
        rw [he] at hh
        exact (hh.symm).eq_nil
      unfold mkEdge
      rw [hsd1, hsd2, if_pos he, if_pos he2]
      cases u <;> simp [hpc k]
    · have he2 : ¬ samplesOf u (majorP ss2 m) ss2 k = [] := by
        intro h0
        apply he
        have hh := hsamp k
        rw [h0] at hh
        exact hh.eq_nil
      unfold mkEdge
      rw [hsd1, hsd2, if_neg he, if_neg he2]
      have hsum : (samplesOf u (majorP ss1 m) ss1 k).sum
          = (samplesOf u (majorP ss2 m) ss2 k).sum := (hsamp k).sum_eq
      have hlen : (samplesOf u (majorP ss1 m) ss1 k).length
          = (samplesOf u (majorP ss2 m) ss2 k).length := (hsamp k).length_eq
      cases u <;> simp [he, he2, hpc k, hsum, hlen]
  have hkeys : List.Perm (pairKeys (majorP ss1 m) ss1) (pairKeys (majorP ss2 m) ss2) := by
    rw [← hP]
    unfold pairKeys keyList
    exact ((hocc.filterMap (keyOf (majorP ss1 m)))).dedup
  constructor
  · simp only [buildGraph]
    have hnode : (fun e => (e, (aggregate u (majorP ss2 m) ss2).full_connections e))
        = (fun e => (e, (aggregate u (majorP ss1 m) ss1).full_connections e)) := by
      funext e
      rw [hfc e]
    rw [hnode]
    exact hmaj.map _
  · simp only [buildGraph]
    have hmk2 : (pairKeys (majorP ss2 m) ss2).map (mkEdge u (aggregate u (majorP ss2 m) ss2))
        = (pairKeys (majorP ss2 m) ss2).map (mkEdge u (aggregate u (majorP ss1 m) ss1)) := by
      apply List.map_congr_left
      intro k _
      rw [hmk k]
    rw [hmk2]
    exact hkeys.map _

/-- C9, witness: instantiation of `claim9_order_invariance` on the reversed
scenario input, with the permutation hypothesis discharged by computation. -/
theorem claim9_order_invariance_witness :
    List.Perm (buildGraph false scenarioSentences 2).nodes
      (buildGraph false scenarioSentences.reverse 2).nodes ∧
    List.Perm (buildGraph false scenarioSentences 2).edges
      (buildGraph false scenarioSentences.reverse 2).edges :=
  claim9_order_invariance false 2 scenarioSentences scenarioSentences.reverse (by decide)

/-! ### Evaluation of the half-up / half-down sentiment scenario -/

theorem convert_joy (c : ℚ) :
    convert_sentiment_to_score { label := "joy", confidence := c } = c := by
  have hpos : positive_labels.any
      (fun pos => hasSub (lowerStr "joy").data pos.data) = true := by decide
  simp [convert_sentiment_to_score, hpos]

theorem convert_anger (c : ℚ) :
    convert_sentiment_to_score { label := "anger", confidence := c } = -c := by
  have hpos : positive_labels.any
      (fun pos => hasSub (lowerStr "anger").data pos.data) = false := by decide
  have hneg : negative_labels.any
      (fun neg => hasSub (lowerStr "anger").data neg.data) = true := by decide
  simp [convert_sentiment_to_score, hpos, hneg]

theorem halfSamples_eq :
    samplesOf true (majorP halfSentences 2) halfSentences ("A", "B") = [1/2, -1/2] := by
  have hs1 : sentSamples true (majorP halfSentences 2) joySentence ("A", "B") = [1/2] := by
    unfold sentSamples
    rw [show sentenceScore true joySentence = some (1/2) from by
      simp [sentenceScore, joySentence, convert_joy]]
    rw [show (((sentencePairs joySentence).filterMap
        (keyOf (majorP halfSentences 2))).count ("A", "B")) = 1 from by decide]
    rfl
  have hs2 : sentSamples true (majorP halfSentences 2) angerSentence ("A", "B") = [-(1/2)] := by
    unfold sentSamples
    rw [show sentenceScore true angerSentence = some (-(1/2)) from by
      simp [sentenceScore, angerSentence, convert_anger]
      try norm_num]
    rw [show (((sentencePairs angerSentence).filterMap
        (keyOf (majorP halfSentences 2))).count ("A", "B")) = 1 from by decide]
    rfl
  have hlist : samplesOf true (majorP halfSentences 2) halfSentences ("A", "B")
      = sentSamples true (majorP halfSentences 2) joySentence ("A", "B")
        ++ (sentSamples true (majorP halfSentences 2) angerSentence ("A", "B") ++ []) := rfl
  rw [hlist, hs1, hs2]
  norm_num

theorem halfSentences_sd :
    (aggregate true (majorP halfSentences 2) halfSentences).sentiment_data ("A", "B")
      = some [1/2, -1/2] := by
  rw [aggregate_sd, halfSamples_eq]
  simp

theorem halfGraph_edges_eq :
    (buildGraph true halfSentences 2).edges = [halfEdge] := by
  have hkeys : pairKeys (majorP halfSentences 2) halfSentences = [("A", "B")] := by decide
  have hpc : (aggregate true (majorP halfSentences 2) halfSentences).pair_count ("A", "B") = 2 := by
    rw [aggregate_count]
    decide
  simp only [buildGraph]
  rw [hkeys]
  simp only [List.map_cons, List.map_nil]
  unfold mkEdge
  rw [halfSentences_sd]
  norm_num [halfEdge, hpc, pyRound3, roundHalfEven]
  simp


theorem mkEdge_some_samples (st : AggState) (k : String × String) (samples : List ℚ)
    (hsd : st.sentiment_data k = some samples) (hne : samples ≠ []) :
    mkEdge true st k
      = { src := k.1, dst := k.2, weight := st.pair_count k
          sentiment := some (pyRound3 (samples.sum / samples.length))
          sentiment_count := some samples.length } := by
  unfold mkEdge
  rw [hsd]
  simp [hne]

/-- C6: with sentiment disabled no edge carries a `sentiment` or
`sentiment_count` attribute; with sentiment enabled every edge whose pair
has a (necessarily non-empty) recorded sample list carries
`sentiment = round(mean(samples), 3)` and `sentiment_count = len(samples)`;
and on the concrete half-up / half-down input the samples `[0.5, -0.5]`
average to a sentiment of exactly `0`. -/
theorem claim6_sentiment_edge_attrs :
    (∀ (sentences : List Sentence) (m : ℕ) (ed : GraphEdge),
      ed ∈ (buildGraph false sentences m).edges →
        ed.sentiment = none ∧ ed.sentiment_count = none) ∧
    (∀ (sentences : List Sentence) (m : ℕ) (ed : GraphEdge) (samples : List ℚ),
      ed ∈ (buildGraph true sentences m).edges →
      (aggregate true (majorP sentences m) sentences).sentiment_data (ed.src, ed.dst)
          = some samples →
      samples ≠ [] ∧
      ed.sentiment = some (pyRound3 (samples.sum / samples.length)) ∧
      ed.sentiment_count = some samples.length) ∧
    (buildGraph true halfSentences 2).edges = [halfEdge] ∧
    halfEdge.sentiment = some 0 := by
  refine ⟨?_, ?_, halfGraph_edges_eq, rfl⟩
  · intro ss m ed hed
    simp only [buildGraph] at hed
    obtain ⟨k, hk, hke⟩ := List.mem_map.mp hed
    rw [← hke]
    unfold mkEdge
    cases hsd : (aggregate false (majorP ss m) ss).sentiment_data k <;> simp
  · intro ss m ed samples hed hsd
    simp only [buildGraph] at hed
    obtain ⟨k, hk, hke⟩ := List.mem_map.mp hed
    obtain ⟨h1, h2⟩ := mkEdge_src_dst true (aggregate true (majorP ss m) ss) k
    have hk2 : (ed.src, ed.dst) = k := by
      rw [← hke, h1, h2]
    rw [hk2] at hsd
    have hsd2 := aggregate_sd true (majorP ss m) ss k
    rw [hsd] at hsd2
    by_cases hemp : samplesOf true (majorP ss m) ss k = []
    · rw [if_pos hemp] at hsd2
      exact absurd hsd2 (by simp)
    · rw [if_neg hemp] at hsd2
      have hsamp : samples = samplesOf true (majorP ss m) ss k := Option.some.inj hsd2
      have hne : samples ≠ [] := by
        rw [hsamp]
        exact hemp
      refine ⟨hne, ?_, ?_⟩
      · rw [← hke, mkEdge_some_samples _ _ _ hsd hne]
      · rw [← hke, mkEdge_some_samples _ _ _ hsd hne]

/-- C6, witness: instantiation of `claim6_sentiment_edge_attrs` on the
half-up / half-down input, discharging the edge-membership and
sample-list hypotheses at the concrete A-B edge. -/
theorem claim6_sentiment_edge_attrs_witness :
    ([1/2, -1/2] : List ℚ) ≠ [] ∧
    halfEdge.sentiment
      = some (pyRound3 (([1/2, -1/2] : List ℚ).sum / ([1/2, -1/2] : List ℚ).length)) ∧
    halfEdge.sentiment_count = some ([1/2, -1/2] : List ℚ).length := by
  have hed : halfEdge ∈ (buildGraph true halfSentences 2).edges := by
    rw [claim6_sentiment_edge_attrs.2.2.1]
    exact List.mem_singleton_self _
  have hsd : (aggregate true (majorP halfSentences 2) halfSentences).sentiment_data
      (halfEdge.src, halfEdge.dst) = some [1/2, -1/2] := halfSentences_sd
  exact claim6_sentiment_edge_attrs.2.1 halfSentences 2 halfEdge [1/2, -1/2] hed hsd

/-- C10: with sentiment enabled, every materialized edge satisfies
`sentiment_count = weight`: each increment of a major-major pair count is
accompanied by exactly one appended sample (the neutral fallback guarantees
a score for every aggregated sentence), the weight is at least 1, and the
defensive empty-sample branch is never taken (the edge always carries a
sentiment value). -/
theorem claim10_sentiment_count_eq_weight (sentences : List Sentence) (m : ℕ)
    (ed : GraphEdge) (hed : ed ∈ (buildGraph true sentences m).edges) :
    ed.sentiment_count = some ed.weight ∧ 1 ≤ ed.weight ∧ ed.sentiment ≠ none := by
  simp only [buildGraph] at hed
  obtain ⟨k, hk, hke⟩ := List.mem_map.mp hed
  have hkmem : k ∈ keyList (majorP sentences m) sentences := List.mem_dedup.mp hk
  have hcnt : 0 < (keyList (majorP sentences m) sentences).count k :=
    List.count_pos_iff.mpr hkmem
  have hlen := samplesOf_length_true (majorP sentences m) sentences k
  have hne : samplesOf true (majorP sentences m) sentences k ≠ [] := by
    intro h0
    rw [h0] at hlen
    simp at hlen
    omega
  have hsd : (aggregate true (majorP sentences m) sentences).sentiment_data k
      = some (samplesOf true (majorP sentences m) sentences k) := by
    rw [aggregate_sd, if_neg hne]
  have hpc := aggregate_count true (majorP sentences m) sentences k
  rw [← hke, mkEdge_some_samples _ _ _ hsd hne]
  refine ⟨?_, ?_, by simp⟩
  · simp only
    rw [hlen, hpc]
  · simp only
    rw [hpc]
    omega

/-- C10, witness: instantiation of `claim10_sentiment_count_eq_weight` on
the half-up / half-down input, discharging the edge-membership hypothesis
at the concrete A-B edge. -/
theorem claim10_sentiment_count_eq_weight_witness :
    halfEdge.sentiment_count = some halfEdge.weight ∧
    1 ≤ halfEdge.weight ∧ halfEdge.sentiment ≠ none := by
  apply claim10_sentiment_count_eq_weight halfSentences 2 halfEdge
  rw [halfGraph_edges_eq]
  exact List.mem_singleton_self _
